import Mathlib

/-!
Verification of the qpipe work-queue broker: a shallow embedding of the
qpipe sources (frame codec in `src/lib.rs`, orchestrator queue,
handshake and workers in `src/bin/orchestrator.rs`, and the
`nu_consumer` CLI in `src/bin/nu_consumer.rs`), together with theorems
settling the claims of the specification about them.

Byte streams are modelled as `List Nat` (each element a byte value);
fallible I/O is modelled with `Except ErrorKind`.  A sink (`&mut W` in
Rust) is threaded explicitly: a write operation takes the bytes already
in the sink and returns the extended sink.  A source (`&mut R`) is a
list of the bytes not yet consumed; reads return the unread remainder.
-/

namespace QPipe

/-- Byte value, `0 ≤ b < 256` where it matters. -/
abbrev Byte := Nat

/-- A stream of bytes (the wire, the contents of a sink, the unread rest
of a source). -/
abbrev ByteStream := List Byte

/-- The `std::io::ErrorKind` values the program distinguishes. -/
inductive ErrorKind where
  | invalidInput
  | invalidData
  | unexpectedEof
  | brokenPipe
  | connectionReset
  | other
  deriving DecidableEq, Repr

/-- Constant `MAX_FRAME_SIZE` from `src/lib.rs`: 16 MiB. -/
def MAX_FRAME_SIZE : Nat := 16 * 1024 * 1024

/-- Constant `TOKEN_LEN` from `src/lib.rs`. -/
def TOKEN_LEN : Nat := 16

/-- Constant `ROLE_PRODUCER` from `src/lib.rs`: the byte 0x50, ASCII P. -/
def ROLE_PRODUCER : Byte := 0x50

/-- Constant `ROLE_CONSUMER` from `src/lib.rs`: the byte 0x43, ASCII C. -/
def ROLE_CONSUMER : Byte := 0x43

/-- Rust `Read::read_exact` on a finite byte source: succeeds returning the
first `n` bytes and the unread remainder; if the stream ends before `n`
bytes are available it fails with `ErrorKind::UnexpectedEof` (consuming
the partial bytes, which are then discarded). -/
def read_exact (n : Nat) (s : ByteStream) : Except ErrorKind (List Byte × ByteStream) :=
  if n ≤ s.length then .ok (s.take n, s.drop n) else .error .unexpectedEof

/-- Rust `u32::to_be_bytes` (on a value `< 2^32`): big-endian 4-byte encoding. -/
def u32_to_be_bytes (n : Nat) : List Byte :=
  [n / 2 ^ 24 % 256, n / 2 ^ 16 % 256, n / 2 ^ 8 % 256, n % 256]

/-- Rust `u32::from_be_bytes` on a 4-byte buffer. -/
def u32_from_be_bytes (bs : List Byte) : Nat :=
  match bs with
  | [b0, b1, b2, b3] => b0 * 2 ^ 24 + b1 * 2 ^ 16 + b2 * 2 ^ 8 + b3
  | _ => 0

/-- Rust `u16::to_be_bytes`: big-endian 2-byte encoding. -/
def u16_to_be_bytes (n : Nat) : List Byte :=
  [n / 256 % 256, n % 256]

/-- Rust `u16::from_be_bytes` on a 2-byte buffer. -/
def u16_from_be_bytes (bs : List Byte) : Nat :=
  match bs with
  | [b0, b1] => b0 * 256 + b1
  | _ => 0

/-- Function `write_frame` from `src/lib.rs`: rejects oversized payloads
with `InvalidInput` before touching the sink; otherwise appends the
4-byte big-endian length followed by the payload bytes.  The pair
returned is the Rust result together with the contents of the sink
afterwards. -/
def write_frame (sink : ByteStream) (payload : List Byte) :
    Except ErrorKind Unit × ByteStream :=
  if payload.length > MAX_FRAME_SIZE then
    (.error .invalidInput, sink)
  else
    (.ok (), sink ++ u32_to_be_bytes payload.length ++ payload)

/-- Function `read_frame` from `src/lib.rs`: reads the 4-byte length
prefix (`UnexpectedEof` there becomes `Ok(None)`), rejects decoded lengths
beyond `MAX_FRAME_SIZE` with `InvalidData`, then reads exactly that many
payload bytes.  On success returns the frame (or `none` for end of
stream) together with the unread remainder of the source. -/
def read_frame (s : ByteStream) : Except ErrorKind (Option (List Byte) × ByteStream) :=
  match read_exact 4 s with
  | .error .unexpectedEof => .ok (none, [])
  | .error e => .error e
  | .ok (len_buf, s₁) =>
    let len := u32_from_be_bytes len_buf
    if len > MAX_FRAME_SIZE then
      .error .invalidData
    else
      match read_exact len s₁ with
      | .ok (payload, s₂) => .ok (some payload, s₂)
      | .error e => .error e

/-- Writing a sequence of frames with `write_frame`, stopping at the first
failure (as a caller looping over `write_frame` with `?` would). -/
def write_frames (sink : ByteStream) : List (List Byte) → Except ErrorKind Unit × ByteStream
  | [] => (.ok (), sink)
  | p :: ps =>
    match write_frame sink p with
    | (.ok _, sink') => write_frames sink' ps
    | (.error e, sink') => (.error e, sink')

/-- Reading frames with `read_frame` until it reports end of stream
(`none`), as the loop of the producer worker does.  The fuel argument bounds
the number of frames; it is in surplus whenever it exceeds the number of
frames actually present, and `read_frames` below supplies enough. -/
def read_frames_fuel : Nat → ByteStream → Except ErrorKind (List (List Byte))
  | 0, _ => .error .other
  | fuel + 1, s =>
    match read_frame s with
    | .error e => .error e
    | .ok (none, _) => .ok []
    | .ok (some f, rest) =>
      match read_frames_fuel fuel rest with
      | .ok fs => .ok (f :: fs)
      | .error e => .error e

/-- Reading all frames from a stream until clean end of stream. Each frame
consumes at least four bytes of the stream, so `s.length + 1` units of
fuel never run out. -/
def read_frames (s : ByteStream) : Except ErrorKind (List (List Byte)) :=
  read_frames_fuel (s.length + 1) s

/-- The bytes a single successful `write_frame` appends to the sink. -/
def frame_bytes (payload : List Byte) : ByteStream :=
  u32_to_be_bytes payload.length ++ payload

theorem u32_round_trip (n : Nat) (h : n < 2 ^ 32) :
    u32_from_be_bytes (u32_to_be_bytes n) = n := by
  simp only [u32_to_be_bytes, u32_from_be_bytes]
  omega

theorem u16_round_trip (n : Nat) (h : n < 2 ^ 16) :
    u16_from_be_bytes (u16_to_be_bytes n) = n := by
  simp only [u16_to_be_bytes, u16_from_be_bytes]
  omega

theorem max_frame_lt_u32 : MAX_FRAME_SIZE < 2 ^ 32 := by decide

/-- A successful `write_frame` appends exactly `frame_bytes payload`. -/
theorem write_frame_ok (sink : ByteStream) (payload : List Byte)
    (h : payload.length ≤ MAX_FRAME_SIZE) :
    write_frame sink payload = (.ok (), sink ++ frame_bytes payload) := by
  simp [write_frame, frame_bytes, Nat.not_lt.mpr h, List.append_assoc]

/-- On a stream starting with a block of the requested length,
`read_exact` returns that block and the rest. -/
theorem read_exact_append (p rest : ByteStream) :
    read_exact p.length (p ++ rest) = .ok (p, rest) := by
  simp [read_exact]

/-- Decoding one well-sized frame off the front of a stream. -/
theorem read_frame_frame_bytes (p rest : ByteStream)
    (h : p.length ≤ MAX_FRAME_SIZE) :
    read_frame (frame_bytes p ++ rest) = .ok (some p, rest) := by
  have hlen : p.length < 2 ^ 32 := lt_of_le_of_lt h max_frame_lt_u32
  have h4 : frame_bytes p ++ rest
      = u32_to_be_bytes p.length ++ (p ++ rest) := by
    simp [frame_bytes, List.append_assoc]
  rw [read_frame, h4]
  have hre : read_exact 4 (u32_to_be_bytes p.length ++ (p ++ rest))
      = .ok (u32_to_be_bytes p.length, p ++ rest) := by
    have : (u32_to_be_bytes p.length).length = 4 := by
      simp [u32_to_be_bytes]
    simpa [this] using
      read_exact_append (u32_to_be_bytes p.length) (p ++ rest)
  rw [hre]
  simp only [u32_round_trip p.length hlen, Nat.not_lt.mpr h, if_neg,
    read_exact_append]
  simp [Nat.not_lt.mpr h]

/-- Concatenation of the frame encodings of a list of payloads. -/
def encode_frames : List (List Byte) → ByteStream
  | [] => []
  | p :: ps => frame_bytes p ++ encode_frames ps

theorem write_frames_ok (sink : ByteStream) (ps : List (List Byte))
    (h : ∀ p ∈ ps, p.length ≤ MAX_FRAME_SIZE) :
    write_frames sink ps = (.ok (), sink ++ encode_frames ps) := by
  induction ps generalizing sink with
  | nil => simp [write_frames, encode_frames]
  | cons p ps ih =>
    have hp : p.length ≤ MAX_FRAME_SIZE := h p (List.mem_cons_self p ps)
    simp only [write_frames, write_frame_ok sink p hp]
    rw [ih (sink ++ frame_bytes p)
      (fun q hq => h q (List.mem_cons_of_mem p hq))]
    simp [encode_frames, List.append_assoc]

theorem read_frames_fuel_encode (ps : List (List Byte)) (fuel : Nat)
    (h : ∀ p ∈ ps, p.length ≤ MAX_FRAME_SIZE) (hfuel : ps.length < fuel) :
    read_frames_fuel fuel (encode_frames ps) = .ok ps := by
  induction ps generalizing fuel with
  | nil =>
    match fuel, hfuel with
    | fuel + 1, _ =>
      simp [read_frames_fuel, encode_frames, read_frame, read_exact]
  | cons p ps ih =>
    match fuel, hfuel with
    | fuel + 1, hfuel =>
      have hp : p.length ≤ MAX_FRAME_SIZE := h p (List.mem_cons_self p ps)
      simp only [read_frames_fuel, encode_frames]
      rw [read_frame_frame_bytes p (encode_frames ps) hp]
      simp [ih fuel (fun q hq => h q (List.mem_cons_of_mem p hq))
        (by simpa using Nat.lt_of_succ_lt_succ hfuel)]

theorem length_le_encode_length (ps : List (List Byte)) :
    ps.length ≤ (encode_frames ps).length := by
  induction ps with
  | nil => simp [encode_frames]
  | cons p ps ih =>
    simp only [encode_frames, frame_bytes, u32_to_be_bytes,
      List.length_append, List.length_cons]
    simp at ih ⊢
    omega

theorem read_frames_encode (ps : List (List Byte))
    (h : ∀ p ∈ ps, p.length ≤ MAX_FRAME_SIZE) :
    read_frames (encode_frames ps) = .ok ps := by
  have hle := length_le_encode_length ps
  exact read_frames_fuel_encode ps ((encode_frames ps).length + 1) h
    (by omega)

/-- Claim C1. For every byte sequence `b` with `|b| ≤ MAX_FRAME_SIZE`, decoding
the bytes produced by `write_frame` on `b` yields `some b`; the concatenation
of N such writes decodes as the same N frames in order (the decode loop
stopping at the clean end-of-stream `none`); and at the empty stream
`read_frame` reports the clean end of stream. -/
theorem frame_round_trip (b : List Byte) (ps : List (List Byte))
    (hb : b.length ≤ MAX_FRAME_SIZE)
    (hps : ∀ p ∈ ps, p.length ≤ MAX_FRAME_SIZE) :
    read_frame (write_frame [] b).2 = .ok (some b, []) ∧
    read_frames (write_frames [] ps).2 = .ok ps ∧
    read_frame [] = .ok (none, []) := by
  refine ⟨?_, ?_, rfl⟩
  · rw [write_frame_ok [] b hb]
    simpa using read_frame_frame_bytes b [] hb
  · rw [write_frames_ok [] ps hps]
    simpa using read_frames_encode ps hps

theorem frame_round_trip_witness :
    ([1, 2, 3] : List Byte).length ≤ MAX_FRAME_SIZE ∧
    (∀ p ∈ ([[4], [5, 6]] : List (List Byte)), p.length ≤ MAX_FRAME_SIZE) ∧
    (read_frame (write_frame [] [1, 2, 3]).2 = .ok (some [1, 2, 3], []) ∧
      read_frames (write_frames [] [[4], [5, 6]]).2 = .ok [[4], [5, 6]] ∧
      read_frame [] = .ok (none, [])) :=
  ⟨by decide, by decide,
    frame_round_trip [1, 2, 3] [[4], [5, 6]] (by decide) (by decide)⟩

/-- Claim C2, counterexample. A source holding a single byte
(end-of-stream after one of the four length-prefix bytes) makes
`read_frame` return the clean-shutdown `none` with a success result, not
an error: Rust `read_exact` reports `UnexpectedEof` whether zero or
one-to-three prefix bytes were available, and `read_frame` maps every
`UnexpectedEof` on the prefix read to `Ok(None)`. -/
theorem read_frame_mid_length_counterexample :
    read_frame [0] = .ok (none, []) ∧ (read_frame [0]).isOk = true :=
  ⟨rfl, rfl⟩

/-- Claim C2, amended. `read_frame` returns `none` exactly when the
source ends before the 4-byte length prefix is complete — after 0, 1, 2
or 3 available bytes alike; end-of-stream inside the payload (a
well-formed prefix announcing `n` bytes followed by fewer than `n`)
fails with an `UnexpectedEof` error rather than returning `none`. -/
theorem read_frame_none_iff (s : ByteStream) (p : List Byte) (n : Nat)
    (hn : p.length < n) (hmax : n ≤ MAX_FRAME_SIZE) :
    ((∃ rest, read_frame s = .ok (none, rest)) ↔ s.length < 4) ∧
    read_frame (u32_to_be_bytes n ++ p) = .error .unexpectedEof := by
  constructor
  · constructor
    · intro ⟨rest, hrest⟩
      by_contra h4
      push_neg at h4
      rw [read_frame] at hrest
      rw [show read_exact 4 s = .ok (s.take 4, s.drop 4) from
        if_pos h4] at hrest
      simp only at hrest
      by_cases hlen : u32_from_be_bytes (s.take 4) > MAX_FRAME_SIZE
      · rw [if_pos hlen] at hrest
        exact Except.noConfusion hrest
      · rw [if_neg hlen] at hrest
        rcases hre : read_exact (u32_from_be_bytes (s.take 4)) (s.drop 4) with
          e | pair
        · rw [hre] at hrest
          exact Except.noConfusion hrest
        · rw [hre] at hrest
          simp at hrest
    · intro h4
      refine ⟨[], ?_⟩
      rw [read_frame]
      rw [show read_exact 4 s = .error .unexpectedEof from
        if_neg (by omega)]
  · have hn32 : n < 2 ^ 32 := lt_of_le_of_lt hmax max_frame_lt_u32
    rw [read_frame]
    have h4 : read_exact 4 (u32_to_be_bytes n ++ p)
        = .ok (u32_to_be_bytes n, p) := by
      have : (u32_to_be_bytes n).length = 4 := by simp [u32_to_be_bytes]
      simpa [this] using read_exact_append (u32_to_be_bytes n) p
    rw [h4]
    simp only [u32_round_trip n hn32]
    rw [if_neg (by omega)]
    rw [show read_exact n p = .error .unexpectedEof from if_neg (by omega)]

theorem read_frame_none_iff_witness :
    ([9] : List Byte).length < 2 ∧ 2 ≤ MAX_FRAME_SIZE ∧
    (((∃ rest, read_frame [7] = .ok (none, rest)) ↔
        ([7] : ByteStream).length < 4) ∧
      read_frame (u32_to_be_bytes 2 ++ [9]) = .error .unexpectedEof) :=
  ⟨by decide, by decide,
    read_frame_none_iff [7] [9] 2 (by decide) (by decide)⟩

/-- Claim C3. `write_frame` on a payload longer than `MAX_FRAME_SIZE` fails
with `InvalidInput` leaving the sink untouched; `read_frame` on a stream
whose length field decodes above `MAX_FRAME_SIZE` fails with
`InvalidData` whatever bytes follow the prefix — in particular before any
payload is read or stored. -/
theorem length_cap_enforced (sink : ByteStream) (payload : List Byte)
    (rest : ByteStream) (n : Nat)
    (hp : payload.length > MAX_FRAME_SIZE)
    (hn : MAX_FRAME_SIZE < n) (hn32 : n < 2 ^ 32) :
    write_frame sink payload = (.error .invalidInput, sink) ∧
    read_frame (u32_to_be_bytes n ++ rest) = .error .invalidData := by
  constructor
  · simp [write_frame, hp]
  · rw [read_frame]
    have h4 : read_exact 4 (u32_to_be_bytes n ++ rest)
        = .ok (u32_to_be_bytes n, rest) := by
      have : (u32_to_be_bytes n).length = 4 := by simp [u32_to_be_bytes]
      simpa [this] using read_exact_append (u32_to_be_bytes n) rest
    rw [h4]
    simp only [u32_round_trip n hn32]
    rw [if_pos (by omega)]

theorem length_cap_enforced_witness :
    (List.replicate (MAX_FRAME_SIZE + 1) 0).length > MAX_FRAME_SIZE ∧
    MAX_FRAME_SIZE < MAX_FRAME_SIZE + 1 ∧ MAX_FRAME_SIZE + 1 < 2 ^ 32 ∧
    (write_frame [3] (List.replicate (MAX_FRAME_SIZE + 1) 0)
        = (.error .invalidInput, [3]) ∧
      read_frame (u32_to_be_bytes (MAX_FRAME_SIZE + 1) ++ [])
        = .error .invalidData) :=
  ⟨by simp, by omega, by norm_num [MAX_FRAME_SIZE],
    length_cap_enforced [3] (List.replicate (MAX_FRAME_SIZE + 1) 0) []
      (MAX_FRAME_SIZE + 1) (by simp) (by omega)
      (by norm_num [MAX_FRAME_SIZE])⟩

/-- Function `read_port_token` from `src/lib.rs`: reads 2 bytes, decodes
them as a big-endian u16 port, then reads `TOKEN_LEN` bytes as the
token, returning both with the unread remainder of the source. -/
def read_port_token (s : ByteStream) :
    Except ErrorKind ((Nat × List Byte) × ByteStream) :=
  match read_exact 2 s with
  | .error e => .error e
  | .ok (port_buf, s₁) =>
    match read_exact TOKEN_LEN s₁ with
    | .error e => .error e
    | .ok (token, s₂) => .ok ((u16_from_be_bytes port_buf, token), s₂)

/-- The 18-byte reply `handle_control` writes on the control socket: the
2-byte big-endian port followed by the `TOKEN_LEN`-byte token
(`ctrl.write_all(&port.to_be_bytes())` then `ctrl.write_all(&token)`). -/
def control_reply (port : Nat) (token : List Byte) : ByteStream :=
  u16_to_be_bytes port ++ token

/-- Claim C9. The handshake reply round-trips: for every port below `2^16`
and 16-byte token, parsing the reply the orchestrator writes with
`read_port_token` recovers exactly the pair, consuming exactly the 18
reply bytes. -/
theorem port_token_round_trip (port : Nat) (token : List Byte)
    (rest : ByteStream) (hport : port < 2 ^ 16)
    (htoken : token.length = TOKEN_LEN) :
    read_port_token (control_reply port token ++ rest)
      = .ok ((port, token), rest) := by
  rw [read_port_token, control_reply]
  have h2 : read_exact 2 (u16_to_be_bytes port ++ (token ++ rest))
      = .ok (u16_to_be_bytes port, token ++ rest) := by
    have : (u16_to_be_bytes port).length = 2 := by simp [u16_to_be_bytes]
    simpa [this] using read_exact_append (u16_to_be_bytes port) (token ++ rest)
  rw [List.append_assoc, h2]
  have h16 : read_exact TOKEN_LEN (token ++ rest) = .ok (token, rest) := by
    simpa [htoken] using read_exact_append token rest
  simp [h16, u16_round_trip port hport]

theorem port_token_round_trip_witness :
    40000 < 2 ^ 16 ∧
    (List.range TOKEN_LEN).length = TOKEN_LEN ∧
    read_port_token (control_reply 40000 (List.range TOKEN_LEN) ++ [255])
      = .ok ((40000, List.range TOKEN_LEN), [255]) :=
  ⟨by decide, by simp,
    port_token_round_trip 40000 (List.range TOKEN_LEN) [255] (by decide)
      (by simp)⟩

/-!
The bounded blocking queue: `SharedQueue` in `src/bin/orchestrator.rs`.

Both `push` and `pop` hold the mutex of the queue for the whole
mutation, so each completed operation is one atomic step on the
protected state; waiting on a condition variable while the guard
(`len ≥ capacity`, `is_empty`) holds is modelled by the step being
disabled (`none`) in such states.  The `depth` atomic counter is part of
the state and updated exactly where the source updates it, inside the
locked region.
-/

/-- The state protected by the mutex of `SharedQueue`, plus its `depth`
atomic: the `VecDeque` contents (front of the deque = head of the list)
and the counter. -/
structure QueueState where
  items : List (List Byte)
  depth : Nat
  deriving DecidableEq, Repr

/-- The two queue operations. -/
inductive QueueOp where
  | push (msg : List Byte)
  | pop
  deriving DecidableEq, Repr

namespace SharedQueue

/-- Constructor `SharedQueue::new`: empty deque, depth 0. -/
def init : QueueState := ⟨[], 0⟩

/-- One completed `push` or `pop` of a `SharedQueue` with capacity `C`.
`push` waits while `q.len() ≥ capacity` (disabled: `none`), then appends
at the back and increments `depth`; `pop` waits while the deque is empty,
then removes the front and decrements `depth`. -/
def step (C : Nat) (st : QueueState) : QueueOp → Option QueueState
  | .push msg =>
    if st.items.length < C then
      some ⟨st.items ++ [msg], st.depth + 1⟩
    else
      none
  | .pop =>
    match st.items with
    | [] => none
    | _ :: rest => some ⟨rest, st.depth - 1⟩

/-- The states reachable from the initial queue by completed operations. -/
inductive Reachable (C : Nat) : QueueState → Prop
  | init : Reachable C init
  | step {st st' : QueueState} {op : QueueOp} :
      Reachable C st → SharedQueue.step C st op = some st' → Reachable C st'

end SharedQueue

/-- Claim C4. In every state of a capacity-`C` `SharedQueue` reachable by
completed operations: the depth counter equals the length of the deque, the
depth is between 0 and `C`, a `push` can complete exactly when the depth
is below `C` (it blocks at `depth = C`), and a `pop` can complete exactly
when the depth is positive (it blocks at `depth = 0`). -/
theorem queue_invariant (C : Nat) (st : QueueState) (msg : List Byte)
    (h : SharedQueue.Reachable C st) :
    st.depth = st.items.length ∧ st.depth ≤ C ∧
    ((SharedQueue.step C st (.push msg)).isSome ↔ st.depth < C) ∧
    ((SharedQueue.step C st .pop).isSome ↔ 0 < st.depth) := by
  have main : st.depth = st.items.length ∧ st.depth ≤ C := by
    induction h with
    | init => simp [SharedQueue.init]
    | @step st₁ st' op hreach hstep ih =>
      cases op with
      | push m =>
        by_cases hfull : st₁.items.length < C
        · simp only [SharedQueue.step, if_pos hfull] at hstep
          cases hstep
          simp only [List.length_append, List.length_cons,
            List.length_nil]
          omega
        · simp [SharedQueue.step, if_neg hfull] at hstep
      | pop =>
        match hitems : st₁.items with
        | [] => simp [SharedQueue.step, hitems] at hstep
        | x :: rest =>
          simp only [SharedQueue.step, hitems] at hstep
          cases hstep
          rw [hitems] at ih
          simp only [List.length_cons] at ih
          simp only [List.length_cons]
          omega
  refine ⟨main.1, main.2, ?_, ?_⟩
  · constructor
    · intro hs
      by_contra hlt
      have : ¬ st.items.length < C := by omega
      simp [SharedQueue.step, this] at hs
    · intro hlt
      have : st.items.length < C := by omega
      simp [SharedQueue.step, this]
  · constructor
    · intro hs
      match hitems : st.items with
      | [] => simp [SharedQueue.step, hitems] at hs
      | x :: rest =>
        rw [main.1, hitems]
        simp
    · intro hpos
      have : st.items ≠ [] := by
        intro hnil
        rw [main.1, hnil] at hpos
        simp at hpos
      match hitems : st.items with
      | [] => exact absurd hitems this
      | x :: rest => simp [SharedQueue.step, hitems]

theorem queue_invariant_witness :
    SharedQueue.Reachable 2 ⟨[[1]], 1⟩ ∧
    ((⟨[[1]], 1⟩ : QueueState).depth = ([[1]] : List (List Byte)).length ∧
      (⟨[[1]], 1⟩ : QueueState).depth ≤ 2 ∧
      ((SharedQueue.step 2 ⟨[[1]], 1⟩ (.push [2])).isSome ↔
        (⟨[[1]], 1⟩ : QueueState).depth < 2) ∧
      ((SharedQueue.step 2 ⟨[[1]], 1⟩ .pop).isSome ↔
        0 < (⟨[[1]], 1⟩ : QueueState).depth)) :=
  have hreach : SharedQueue.Reachable 2 ⟨[[1]], 1⟩ :=
    SharedQueue.Reachable.step SharedQueue.Reachable.init
      (show SharedQueue.step 2 SharedQueue.init (.push [1]) = some ⟨[[1]], 1⟩
        from by decide)
  ⟨hreach, queue_invariant 2 ⟨[[1]], 1⟩ [2] hreach⟩

/-!
Worker accounting: `run_producer` and `run_consumer` in
`src/bin/orchestrator.rs`.

One iteration of a worker loop — dequeue/enqueue plus the counter
updates it performs before the next blocking call — is modelled as one
atomic step; a state is *quiescent* exactly when no such iteration is
half done, so the reachable states of the step relation are the
quiescent states.
-/

/-- The orchestrator state the workers touch: the contents of the shared
queue and the `Stats` counters updated by `run_producer` and
`run_consumer`. -/
structure OrchState where
  queue : List (List Byte)
  posted_msgs : Nat
  posted_bytes : Nat
  collected_msgs : Nat
  collected_bytes : Nat
  dropped_msgs : Nat
  dropped_bytes : Nat
  deriving DecidableEq, Repr

/-- Startup state: empty queue, all counters zero (`Stats::default`). -/
def OrchState.init : OrchState := ⟨[], 0, 0, 0, 0, 0, 0⟩

/-- One `run_producer` loop iteration in which `read_frame` returned
`Some(msg)`: `queue.push(msg)` completes only while the queue is below
capacity (otherwise the iteration is still blocked: `none`), then
`posted_msgs` gains 1 and `posted_bytes` gains `msg.len()`. -/
def run_producer_iteration (C : Nat) (st : OrchState) (msg : List Byte) :
    Option OrchState :=
  if st.queue.length < C then
    some { st with
      queue := st.queue ++ [msg],
      posted_msgs := st.posted_msgs + 1,
      posted_bytes := st.posted_bytes + msg.length }
  else
    none

/-- The outcome of the `write_frame` call inside `run_consumer`. -/
inductive WriteOutcome where
  | success
  | failure (kind : ErrorKind)
  deriving DecidableEq, Repr

/-- How one `run_consumer` loop iteration left the loop. -/
inductive LoopResult where
  | continued
  | returnedOk
  | returnedErr (kind : ErrorKind)
  deriving DecidableEq, Repr

/-- One `run_consumer` loop iteration: `queue.pop()` completes only on a
non-empty queue (otherwise still blocked: `none`).  On write success the
`collected` counters gain the frame; the loop continues.  On write
failure the `dropped` counters gain the frame — the message is *not* put
back — and the worker returns `Ok(())` when the error kind is
`BrokenPipe`, `ConnectionReset` or `UnexpectedEof`, else returns the
error. -/
def run_consumer_iteration (st : OrchState) (w : WriteOutcome) :
    Option (OrchState × LoopResult) :=
  match st.queue with
  | [] => none
  | msg :: rest =>
    match w with
    | .success =>
      some ({ st with
        queue := rest,
        collected_msgs := st.collected_msgs + 1,
        collected_bytes := st.collected_bytes + msg.length }, .continued)
    | .failure k =>
      some ({ st with
        queue := rest,
        dropped_msgs := st.dropped_msgs + 1,
        dropped_bytes := st.dropped_bytes + msg.length },
        if k = .brokenPipe ∨ k = .connectionReset ∨ k = .unexpectedEof then
          .returnedOk
        else
          .returnedErr k)

/-- One completed worker iteration, by any producer or consumer thread. -/
inductive OrchStep (C : Nat) : OrchState → OrchState → Prop where
  | producer {st st' : OrchState} {msg : List Byte} :
      run_producer_iteration C st msg = some st' → OrchStep C st st'
  | consumer {st st' : OrchState} {w : WriteOutcome} {r : LoopResult} :
      run_consumer_iteration st w = some (st', r) → OrchStep C st st'

/-- The quiescent states reachable from startup by completed worker
iterations, in any interleaving. -/
inductive OrchReachable (C : Nat) : OrchState → Prop where
  | init : OrchReachable C OrchState.init
  | step {st st' : OrchState} :
      OrchReachable C st → OrchStep C st st' → OrchReachable C st'

/-- Claim C5. At every quiescent state, in every interleaving of producer
and consumer iterations: `posted_msgs = collected_msgs + dropped_msgs +
depth` — every posted frame is in exactly one of the states
still-queued, collected, or dropped. -/
theorem conservation (C : Nat) (st : OrchState) (h : OrchReachable C st) :
    st.posted_msgs = st.collected_msgs + st.dropped_msgs + st.queue.length := by
  induction h with
  | init => rfl
  | @step st₁ st' hreach hstep ih =>
    cases hstep with
    | producer hit =>
      rename_i msg
      by_cases hlt : st₁.queue.length < C
      · simp only [run_producer_iteration, if_pos hlt] at hit
        cases hit
        simp only [List.length_append, List.length_cons, List.length_nil]
        omega
      · simp [run_producer_iteration, if_neg hlt] at hit
    | consumer hit =>
      rename_i w r
      match hq : st₁.queue with
      | [] =>
        rw [run_consumer_iteration, hq] at hit
        exact Option.noConfusion hit
      | msg :: rest =>
        rw [run_consumer_iteration, hq] at hit
        rw [hq] at ih
        cases w with
        | success =>
          simp only at hit
          cases hit
          simp only [List.length_cons] at ih ⊢
          omega
        | failure k =>
          simp only at hit
          cases hit
          simp only [List.length_cons] at ih ⊢
          omega

theorem conservation_witness :
    OrchReachable 3 ⟨[], 1, 1, 0, 0, 1, 1⟩ ∧
    (⟨[], 1, 1, 0, 0, 1, 1⟩ : OrchState).posted_msgs =
      (⟨[], 1, 1, 0, 0, 1, 1⟩ : OrchState).collected_msgs +
        (⟨[], 1, 1, 0, 0, 1, 1⟩ : OrchState).dropped_msgs +
        (⟨[], 1, 1, 0, 0, 1, 1⟩ : OrchState).queue.length :=
  have h1 : OrchReachable 3 ⟨[[7]], 1, 1, 0, 0, 0, 0⟩ :=
    .step .init (.producer
      (show run_producer_iteration 3 OrchState.init [7]
          = some ⟨[[7]], 1, 1, 0, 0, 0, 0⟩ from by decide))
  have h2 : OrchReachable 3 ⟨[], 1, 1, 0, 0, 1, 1⟩ :=
    .step h1 (.consumer
      (show run_consumer_iteration ⟨[[7]], 1, 1, 0, 0, 0, 0⟩ (.failure .other)
          = some (⟨[], 1, 1, 0, 0, 1, 1⟩, .returnedErr .other) from by decide))
  ⟨h2, conservation 3 ⟨[], 1, 1, 0, 0, 1, 1⟩ h2⟩

/-- Claim C6. When the write by the consumer worker fails after a pop: the
dropped counters gain exactly that frame, the frame is not re-queued
(the queue is exactly the old tail), the collected counters are
untouched, and the iteration returns success precisely for the kinds
`BrokenPipe`, `ConnectionReset`, `UnexpectedEof` and returns the error
for every other kind; on write success the collected counters gain the
frame and the dropped counters are untouched. -/
theorem consumer_drop_semantics (st : OrchState) (msg : List Byte)
    (rest : List (List Byte)) (k : ErrorKind) (hq : st.queue = msg :: rest) :
    (∃ st' r, run_consumer_iteration st (.failure k) = some (st', r) ∧
      st'.dropped_msgs = st.dropped_msgs + 1 ∧
      st'.dropped_bytes = st.dropped_bytes + msg.length ∧
      st'.queue = rest ∧
      st'.collected_msgs = st.collected_msgs ∧
      st'.collected_bytes = st.collected_bytes ∧
      (r = .returnedOk ↔
        k = .brokenPipe ∨ k = .connectionReset ∨ k = .unexpectedEof) ∧
      (¬(k = .brokenPipe ∨ k = .connectionReset ∨ k = .unexpectedEof) →
        r = .returnedErr k)) ∧
    (∀ st' r, run_consumer_iteration st .success = some (st', r) →
      st'.collected_msgs = st.collected_msgs + 1 ∧
      st'.collected_bytes = st.collected_bytes + msg.length ∧
      st'.dropped_msgs = st.dropped_msgs ∧
      st'.queue = rest ∧ r = .continued) := by
  constructor
  · by_cases hk : k = .brokenPipe ∨ k = .connectionReset ∨ k = .unexpectedEof
    · refine ⟨_, _, by rw [run_consumer_iteration, hq], ?_, ?_, ?_, ?_, ?_, ?_, ?_⟩
        <;> simp [hk]
    · refine ⟨_, _, by rw [run_consumer_iteration, hq], ?_, ?_, ?_, ?_, ?_, ?_, ?_⟩
        <;> simp [hk]
  · intro st' r hit
    rw [run_consumer_iteration, hq] at hit
    simp only [Option.some.injEq, Prod.mk.injEq] at hit
    obtain ⟨hst', hr⟩ := hit
    subst hst' hr
    simp

theorem consumer_drop_semantics_witness :
    (⟨[[5, 5]], 2, 4, 1, 2, 0, 0⟩ : OrchState).queue = [5, 5] :: [] ∧
    ((∃ st' r,
        run_consumer_iteration ⟨[[5, 5]], 2, 4, 1, 2, 0, 0⟩ (.failure .other)
          = some (st', r) ∧
        st'.dropped_msgs = (⟨[[5, 5]], 2, 4, 1, 2, 0, 0⟩ : OrchState).dropped_msgs + 1 ∧
        st'.dropped_bytes =
          (⟨[[5, 5]], 2, 4, 1, 2, 0, 0⟩ : OrchState).dropped_bytes +
            ([5, 5] : List Byte).length ∧
        st'.queue = [] ∧
        st'.collected_msgs = (⟨[[5, 5]], 2, 4, 1, 2, 0, 0⟩ : OrchState).collected_msgs ∧
        st'.collected_bytes = (⟨[[5, 5]], 2, 4, 1, 2, 0, 0⟩ : OrchState).collected_bytes ∧
        (r = .returnedOk ↔
          ErrorKind.other = .brokenPipe ∨ ErrorKind.other = .connectionReset ∨
            ErrorKind.other = .unexpectedEof) ∧
        (¬(ErrorKind.other = .brokenPipe ∨ ErrorKind.other = .connectionReset ∨
            ErrorKind.other = .unexpectedEof) →
          r = .returnedErr .other)) ∧
      (∀ st' r,
        run_consumer_iteration ⟨[[5, 5]], 2, 4, 1, 2, 0, 0⟩ .success
          = some (st', r) →
        st'.collected_msgs =
          (⟨[[5, 5]], 2, 4, 1, 2, 0, 0⟩ : OrchState).collected_msgs + 1 ∧
        st'.collected_bytes =
          (⟨[[5, 5]], 2, 4, 1, 2, 0, 0⟩ : OrchState).collected_bytes +
            ([5, 5] : List Byte).length ∧
        st'.dropped_msgs = (⟨[[5, 5]], 2, 4, 1, 2, 0, 0⟩ : OrchState).dropped_msgs ∧
        st'.queue = [] ∧ r = .continued)) :=
  ⟨rfl, consumer_drop_semantics ⟨[[5, 5]], 2, 4, 1, 2, 0, 0⟩ [5, 5] [] .other rfl⟩

/-!
The session handshake: `handle_control` in `src/bin/orchestrator.rs`.

Here `handle_control` is a straight-line effectful function; its inputs that
come from the outside world — the role byte read from the control
socket, the OS-chosen ephemeral port, the random token, and the sequence
of connections accepted on the ephemeral listener — are parameters, and
its externally visible effects are collected in a trace record.
-/

/-- The negotiated role. -/
inductive Role where
  | producer
  | consumer
  deriving DecidableEq, Repr

/-- One accepted connection on the ephemeral data listener: `none` when
the 5-second `read_exact` of the `TOKEN_LEN` token bytes failed or timed
out, `some got` when it produced the bytes `got`. -/
abbrev AuthAttempt := Option (List Byte)

/-- The authentication loop of `handle_control`: accept, read the token
bytes under the 5-second timeout, break on `Ok(())` with an exact token
match, otherwise close the socket and continue accepting.  Returns the
index of the first attempt that authenticates, or `none` when no listed
attempt did (the loop is then still blocked in `accept`). -/
def await_data (token : List Byte) : List AuthAttempt → Option Nat
  | [] => none
  | a :: rest =>
    if a = some token then some 0
    else (await_data token rest).map (· + 1)

/-- How a control session ended (so far). -/
inductive SessionOutcome where
  | failed (e : ErrorKind)
  | accepting
  | worker (role : Role) (attempt : Nat)
  deriving DecidableEq, Repr

/-- The externally visible effects of `handle_control`. -/
structure SessionTrace where
  listenerBound : Bool
  controlReply : Option ByteStream
  closedAttempts : Nat
  listenerClosed : Bool
  timeoutCleared : Bool
  outcome : SessionOutcome
  deriving DecidableEq, Repr

/-- Function `handle_control`: read the role byte; reject anything other than
`ROLE_PRODUCER`/`ROLE_CONSUMER` with `InvalidData` before the ephemeral
listener is bound; otherwise bind the listener, write the port+token
reply on the control socket, run the authentication loop, and on the
first exact token match clear the read timeout, drop the listener and
enter the worker for the negotiated role. -/
def handle_control (roleByte : Byte) (port : Nat) (token : List Byte)
    (attempts : List AuthAttempt) : SessionTrace :=
  if roleByte ≠ ROLE_PRODUCER ∧ roleByte ≠ ROLE_CONSUMER then
    { listenerBound := false
      controlReply := none
      closedAttempts := 0
      listenerClosed := false
      timeoutCleared := false
      outcome := .failed .invalidData }
  else
    match await_data token attempts with
    | some i =>
      { listenerBound := true
        controlReply := some (control_reply port token)
        closedAttempts := i
        listenerClosed := true
        timeoutCleared := true
        outcome := .worker
          (if roleByte = ROLE_PRODUCER then .producer else .consumer) i }
    | none =>
      { listenerBound := true
        controlReply := some (control_reply port token)
        closedAttempts := attempts.length
        listenerClosed := false
        timeoutCleared := false
        outcome := .accepting }

/-- Claim C7. A control connection whose first byte is neither `0x50`
(ASCII P) nor `0x43` (ASCII C) makes the handshake fail with `InvalidData`,
with no reply written, no ephemeral data listener bound, and no worker
started — whatever connections would later knock on a data port. -/
theorem handshake_rejects_unknown_role (roleByte : Byte) (port : Nat)
    (token : List Byte) (attempts : List AuthAttempt)
    (hp : roleByte ≠ ROLE_PRODUCER) (hc : roleByte ≠ ROLE_CONSUMER) :
    handle_control roleByte port token attempts =
      { listenerBound := false
        controlReply := none
        closedAttempts := 0
        listenerClosed := false
        timeoutCleared := false
        outcome := .failed .invalidData } := by
  rw [handle_control, if_pos ⟨hp, hc⟩]

theorem handshake_rejects_unknown_role_witness :
    (0x58 : Byte) ≠ ROLE_PRODUCER ∧ (0x58 : Byte) ≠ ROLE_CONSUMER ∧
    handle_control 0x58 7001 (List.replicate TOKEN_LEN 9) [some (List.replicate TOKEN_LEN 9)] =
      { listenerBound := false
        controlReply := none
        closedAttempts := 0
        listenerClosed := false
        timeoutCleared := false
        outcome := .failed .invalidData } :=
  ⟨by decide, by decide,
    handshake_rejects_unknown_role 0x58 7001 (List.replicate TOKEN_LEN 9)
      [some (List.replicate TOKEN_LEN 9)] (by decide) (by decide)⟩

theorem await_data_first_match (token : List Byte)
    (attempts : List AuthAttempt) (i : Nat)
    (hi : attempts[i]? = some (some token))
    (hbefore : ∀ j < i, attempts[j]? ≠ some (some token)) :
    await_data token attempts = some i := by
  induction attempts generalizing i with
  | nil => simp at hi
  | cons a rest ih =>
    cases i with
    | zero =>
      simp only [List.getElem?_cons_zero, Option.some.injEq] at hi
      rw [await_data, if_pos hi]
    | succ n =>
      have ha : a ≠ some token := by
        intro hcontra
        exact hbefore 0 (Nat.succ_pos n) (by simp [hcontra])
      rw [await_data, if_neg ha]
      rw [ih n (by simpa using hi)
        (fun j hj => by simpa using hbefore (j + 1) (Nat.succ_lt_succ hj))]
      rfl

theorem await_data_no_match (token : List Byte) (attempts : List AuthAttempt)
    (h : ∀ a ∈ attempts, a ≠ some token) :
    await_data token attempts = none := by
  induction attempts with
  | nil => rfl
  | cons a rest ih =>
    rw [await_data, if_neg (h a (List.mem_cons_self a rest))]
    rw [ih (fun b hb => h b (List.mem_cons_of_mem a hb))]
    rfl

/-- Claim C8. With a valid role byte: if attempt `i` on the data port is
the first to present exactly the issued token (every earlier accepted
connection either failed the timed read or presented different bytes),
the handshake closes exactly those `i` earlier sockets, clears the read
timeout on the winner, closes the ephemeral listener and transitions to
the worker for the negotiated role; and whenever no attempt so far
presented the token, every one of them has been closed and the listener
is still accepting. -/
theorem handshake_authentication (roleByte : Byte) (port : Nat)
    (token : List Byte) (attempts : List AuthAttempt) (i : Nat)
    (hrole : roleByte = ROLE_PRODUCER ∨ roleByte = ROLE_CONSUMER)
    (hi : attempts[i]? = some (some token))
    (hbefore : ∀ j < i, attempts[j]? ≠ some (some token)) :
    (handle_control roleByte port token attempts =
      { listenerBound := true
        controlReply := some (control_reply port token)
        closedAttempts := i
        listenerClosed := true
        timeoutCleared := true
        outcome := .worker
          (if roleByte = ROLE_PRODUCER then .producer else .consumer) i }) ∧
    ∀ rejected : List AuthAttempt, (∀ a ∈ rejected, a ≠ some token) →
      handle_control roleByte port token rejected =
        { listenerBound := true
          controlReply := some (control_reply port token)
          closedAttempts := rejected.length
          listenerClosed := false
          timeoutCleared := false
          outcome := .accepting } := by
  have hvalid : ¬(roleByte ≠ ROLE_PRODUCER ∧ roleByte ≠ ROLE_CONSUMER) := by
    rcases hrole with h | h <;> simp [h]
  constructor
  · rw [handle_control, if_neg hvalid,
      await_data_first_match token attempts i hi hbefore]
  · intro rejected hrej
    rw [handle_control, if_neg hvalid, await_data_no_match token rejected hrej]

theorem handshake_authentication_witness :
    ((0x43 : Byte) = ROLE_PRODUCER ∨ (0x43 : Byte) = ROLE_CONSUMER) ∧
    ([some [0], none, some (List.replicate TOKEN_LEN 7)] :
        List AuthAttempt)[2]? = some (some (List.replicate TOKEN_LEN 7)) ∧
    (∀ j < 2, ([some [0], none, some (List.replicate TOKEN_LEN 7)] :
        List AuthAttempt)[j]? ≠ some (some (List.replicate TOKEN_LEN 7))) ∧
    ((handle_control 0x43 7100 (List.replicate TOKEN_LEN 7)
        [some [0], none, some (List.replicate TOKEN_LEN 7)] =
      { listenerBound := true
        controlReply := some (control_reply 7100 (List.replicate TOKEN_LEN 7))
        closedAttempts := 2
        listenerClosed := true
        timeoutCleared := true
        outcome := .worker
          (if (0x43 : Byte) = ROLE_PRODUCER then .producer else .consumer)
          2 }) ∧
      ∀ rejected : List AuthAttempt,
        (∀ a ∈ rejected, a ≠ some (List.replicate TOKEN_LEN 7)) →
        handle_control 0x43 7100 (List.replicate TOKEN_LEN 7) rejected =
          { listenerBound := true
            controlReply := some (control_reply 7100 (List.replicate TOKEN_LEN 7))
            closedAttempts := rejected.length
            listenerClosed := false
            timeoutCleared := false
            outcome := .accepting }) :=
  ⟨by decide, by decide, by decide,
    handshake_authentication 0x43 7100 (List.replicate TOKEN_LEN 7)
      [some [0], none, some (List.replicate TOKEN_LEN 7)] 2
      (by decide) (by decide) (by decide)⟩

/-!
The `nu_consumer` CLI, from `src/bin/nu_consumer.rs`.

Its main function connects, then loops: `recv` a frame first, and only
then dispatch on the mode string.  The sequence of `recv` results the
connection will yield is a parameter; the run record collects the lines
written to stdout (without their trailing newline), the number of frames
received, and how the loop ended — `waiting` meaning it is blocked in
`recv` for a frame that has not arrived.
-/

/-- The byte of the output character for one 6-bit group, standard base64
alphabet (`A`–`Z`, `a`–`z`, `0`–`9`, `+`, `/`). -/
def base64_char (n : Nat) : Byte :=
  if n < 26 then 65 + n
  else if n < 52 then 97 + (n - 26)
  else if n < 62 then 48 + (n - 52)
  else if n = 62 then 43
  else 47

/-- Model of `STANDARD.encode`: RFC 4648 base64 with padding, three
input bytes per four output characters. -/
def base64_encode : List Byte → List Byte
  | [] => []
  | [a] => [base64_char (a / 4), base64_char (a % 4 * 16), 61, 61]
  | [a, b] =>
    [base64_char (a / 4), base64_char (a % 4 * 16 + b / 16),
      base64_char (b % 16 * 4), 61]
  | a :: b :: c :: rest =>
    base64_char (a / 4) :: base64_char (a % 4 * 16 + b / 16) ::
      base64_char (b % 16 * 4 + c / 64) :: base64_char (c % 64) ::
      base64_encode rest

/-- States of the UTF-8 well-formedness automaton: how many continuation
bytes are still expected, with the constrained first-continuation states
after `0xE0`, `0xED`, `0xF0`, `0xF4`. -/
inductive Utf8State where
  | start
  | one
  | two
  | twoE0
  | twoED
  | three
  | threeF0
  | threeF4
  | reject
  deriving DecidableEq, Repr

/-- One byte of the UTF-8 automaton (excluding overlongs, surrogates and
code points above `U+10FFFF`, as Rust's `str::from_utf8` does). -/
def utf8_step (st : Utf8State) (b : Byte) : Utf8State :=
  match st with
  | .start =>
    if b ≤ 0x7F then .start
    else if 0xC2 ≤ b ∧ b ≤ 0xDF then .one
    else if b = 0xE0 then .twoE0
    else if (0xE1 ≤ b ∧ b ≤ 0xEC) ∨ (0xEE ≤ b ∧ b ≤ 0xEF) then .two
    else if b = 0xED then .twoED
    else if b = 0xF0 then .threeF0
    else if 0xF1 ≤ b ∧ b ≤ 0xF3 then .three
    else if b = 0xF4 then .threeF4
    else .reject
  | .one => if 0x80 ≤ b ∧ b ≤ 0xBF then .start else .reject
  | .two => if 0x80 ≤ b ∧ b ≤ 0xBF then .one else .reject
  | .twoE0 => if 0xA0 ≤ b ∧ b ≤ 0xBF then .one else .reject
  | .twoED => if 0x80 ≤ b ∧ b ≤ 0x9F then .one else .reject
  | .three => if 0x80 ≤ b ∧ b ≤ 0xBF then .two else .reject
  | .threeF0 => if 0x90 ≤ b ∧ b ≤ 0xBF then .two else .reject
  | .threeF4 => if 0x80 ≤ b ∧ b ≤ 0x8F then .two else .reject
  | .reject => .reject

/-- Rust `std::str::from_utf8` succeeds exactly on well-formed UTF-8. -/
def utf8_valid (bs : List Byte) : Bool :=
  bs.foldl utf8_step .start = .start

/-- One `nu_consumer` loop body after `recv` returned `msg`: dispatch on
the mode string in source order (`"--jsonl"`, `"--base64"`, wildcard)
and produce the line to print (without its trailing newline) or the
error `main` returns. -/
def nu_handle (mode : String) (msg : List Byte) : Except ErrorKind (List Byte) :=
  if mode = "--jsonl" then
    if utf8_valid msg then
      if msg.contains 10 then .error .invalidData
      else .ok msg
    else .error .invalidData
  else if mode = "--base64" then
    .ok (base64_encode msg)
  else
    .error .invalidInput

/-- How a `nu_consumer` run ended. -/
inductive NuOutcome where
  | waiting
  | failed (e : ErrorKind)
  deriving DecidableEq, Repr

/-- The observable result of a `nu_consumer` run: printed lines (oldest
first, each without its newline), frames successfully received, and the
final state. -/
structure NuRun where
  lines : List (List Byte)
  consumed : Nat
  outcome : NuOutcome
  deriving DecidableEq, Repr

/-- The `nu_consumer` main loop over the `recv` results the connection
yields: `recv` first (an error there is returned by `?`), then handle
the frame; an exhausted list means the loop is blocked in `recv`. -/
def nu_loop (mode : String) : List (Except ErrorKind (List Byte)) → NuRun
  | [] => ⟨[], 0, .waiting⟩
  | .error e :: _ => ⟨[], 0, .failed e⟩
  | .ok msg :: rest =>
    match nu_handle mode msg with
    | .error e => ⟨[], 1, .failed e⟩
    | .ok line =>
      let r := nu_loop mode rest
      ⟨line :: r.lines, r.consumed + 1, r.outcome⟩

/-- The `main` of `nu_consumer` after argument parsing:
`Consumer::connect` (whose failure is returned before any `recv`), then
the loop. -/
def nu_main (mode : String) (connect : Except ErrorKind Unit)
    (recvs : List (Except ErrorKind (List Byte))) : NuRun :=
  match connect with
  | .error e => ⟨[], 0, .failed e⟩
  | .ok _ => nu_loop mode recvs

/-- Claim C10. With an output mode other than `--jsonl` and `--base64`,
`nu_consumer` does not fail at startup: after a successful connect it
blocks in `recv` as long as no frame arrives (no `InvalidInput` yet),
and the `InvalidInput` error is returned only once the first frame has
been received — exactly one frame consumed, nothing printed. -/
theorem nu_consumer_late_mode_error (mode : String) (f : List Byte)
    (recvs : List (Except ErrorKind (List Byte)))
    (hj : mode ≠ "--jsonl") (hb : mode ≠ "--base64") :
    nu_main mode (.ok ()) [] = ⟨[], 0, .waiting⟩ ∧
    nu_main mode (.ok ()) (.ok f :: recvs) =
      ⟨[], 1, .failed .invalidInput⟩ := by
  refine ⟨rfl, ?_⟩
  rw [nu_main]
  rw [nu_loop]
  rw [nu_handle, if_neg hj, if_neg hb]

theorem nu_consumer_late_mode_error_witness :
    ("--hex" : String) ≠ "--jsonl" ∧ ("--hex" : String) ≠ "--base64" ∧
    (nu_main "--hex" (.ok ()) [] = ⟨[], 0, .waiting⟩ ∧
      nu_main "--hex" (.ok ()) [.ok [0], .ok [1]] =
        ⟨[], 1, .failed .invalidInput⟩) :=
  ⟨by decide, by decide,
    nu_consumer_late_mode_error "--hex" [0] [.ok [1]] (by decide) (by decide)⟩

end QPipe
